import Mathlib

/-!
# Verification of kmodules/chart-packer

Shallow embedding of `pkg/cmds/crdless.go` and `pkg/cmds/crdonly.go`.

A Helm chart is modelled as a rose tree: metadata (a nullable pointer in Go,
hence `Option`), the `Files`, `Templates` and `Raw` file lists, and the list
of dependency subcharts.  File data (`[]byte` in Go) is modelled as `String`.

External collaborators (the Helm SDK and the YAML layer) are embedded as
follows:
* `Chart.CRDObjects` (helm.sh/helm/v3 `pkg/chart/chart.go`) is translated
  directly from the Helm v3 source: it returns the files of the chart whose
  name has the `crds/` path prefix and a manifest extension
  (`.yaml`/`.yml`/`.json`, compared case-insensitively), followed by the
  `CRDObjects` of each dependency, recursively ("Get CRDs from dependencies,
  too.").
* `yaml.Unmarshal` into a typed `CustomResourceDefinition` struct and into a
  generic `map[string]any` are abstract parameters (`parseCRD`, `parseDoc`),
  as is `yaml.Marshal`; the claims under study are independent of the
  concrete parser.
* `unstructured.SetNestedField` (k8s.io/apimachinery) is translated from its
  source: walk the field path, descending into existing maps, failing on an
  existing non-map value, creating intermediate maps for absent keys, and
  finally writing the value at the last field.
-/

namespace ChartPacker

/-! ## String helpers (Go `strings`/`path/filepath` behaviour) -/

/-- `strings.HasPrefix`: does the character list `p` occur at the start of `s`? -/
def listHasPre : List Char → List Char → Bool
  | [], _ => true
  | _ :: _, [] => false
  | p :: ps, c :: cs => p == c && listHasPre ps cs

/-- `strings.HasPrefix s p` -/
def strHasPre (s p : String) : Bool := listHasPre p.data s.data

/-- Scanner for `filepath.Ext`: walk the reversed character list; stop with ""
at a path separator or at the start, and return from the final dot if one is
found first. `acc` holds the characters already passed, in forward order. -/
def extScan : List Char → List Char → String
  | [], _ => ""
  | c :: rest, acc =>
    if c == '/' then ""
    else if c == '.' then String.mk ('.' :: acc)
    else extScan rest (c :: acc)

/-- `filepath.Ext`: the suffix beginning at the final dot in the final path
element; empty if there is no dot. -/
def filepathExt (s : String) : String := extScan s.data.reverse []

/-- ASCII lower-casing of one character (file extensions are ASCII, so this
matches `strings.EqualFold` on the strings compared here). -/
def asciiLower (c : Char) : Char :=
  if 65 ≤ c.toNat ∧ c.toNat ≤ 90 then Char.ofNat (c.toNat + 32) else c

/-- `strings.EqualFold` restricted to ASCII. -/
def strEqFold (a b : String) : Bool := a.data.map asciiLower == b.data.map asciiLower

/-- helm `hasManifestExtension`: the file extension is `.yaml`, `.yml` or
`.json`, case-insensitively. -/
def hasManifestExtension (fname : String) : Bool :=
  strEqFold (filepathExt fname) ".yaml" || strEqFold (filepathExt fname) ".yml" ||
    strEqFold (filepathExt fname) ".json"

/-! ## Data model (helm `chart.Chart`, restricted to the fields this program
reads or writes) -/

/-- helm `chart.File`: a path and raw byte content. -/
structure File where
  name : String
  data : String
deriving DecidableEq

/-- helm `chart.Metadata`, restricted to the fields the claims touch; the
remaining scalar fields are copied verbatim by the code exactly like
`version`, so one representative of each use suffices. -/
structure Metadata where
  name : String
  version : String
  description : String
  annotations : List (String × String)
deriving DecidableEq

/-- helm `chart.Chart` as a rose tree.  In Go the dependency list is
`[]*chart.Chart`; a loaded chart never contains nil dependency pointers
(the loader builds each entry from a real subchart directory or archive), so
dependencies are modelled as `List Chart`.  The `Metadata` pointer is kept
nullable because `removeCRDsFromChart` tests it for nil. -/
inductive Chart where
  | mk (metadata : Option Metadata) (files : List File) (templates : List File)
      (raw : List File) (deps : List Chart)

def Chart.metadata : Chart → Option Metadata
  | .mk m _ _ _ _ => m

def Chart.files : Chart → List File
  | .mk _ fs _ _ _ => fs

def Chart.templates : Chart → List File
  | .mk _ _ ts _ _ => ts

def Chart.raw : Chart → List File
  | .mk _ _ _ rw _ => rw

def Chart.deps : Chart → List Chart
  | .mk _ _ _ _ ds => ds

/-- helm `Chart.Name()`: the metadata name (the Go method dereferences the
pointer; a loaded chart always has metadata, `""` stands for the impossible
nil case). -/
def Chart.chartName (c : Chart) : String :=
  match c.metadata with
  | some m => m.name
  | none => ""

/-! ## `crdless.go`: removeCRDsFromChart -/

/-- The recursion guard of `removeCRDsFromChart` on a dependency:
`dep.Metadata != nil && len(dep.Files) > 0`. -/
def depGuard (d : Chart) : Bool := d.metadata.isSome && decide (0 < d.files.length)

mutual
/-- `removeCRDsFromChart`: drop every file of this chart whose name has the
`crds/` path prefix, then rebuild the dependency list: a dependency passing
`depGuard` is processed recursively, any other dependency is kept unchanged. -/
def removeCRDsFromChart : Chart → Chart
  | .mk m fs ts rw ds =>
    .mk m (fs.filter fun f => !strHasPre f.name "crds/") ts rw (removeCRDsFromDeps ds)

/-- The dependency loop of `removeCRDsFromChart`. -/
def removeCRDsFromDeps : List Chart → List Chart
  | [] => []
  | d :: ds =>
    (if depGuard d then removeCRDsFromChart d else d) :: removeCRDsFromDeps ds
end

mutual
/-- Does any node of the tree hold a file under `crds/`? (checker used to
state completeness of stripping). -/
def hasCRDAnywhere : Chart → Bool
  | .mk _ fs _ _ ds => fs.any (fun f => strHasPre f.name "crds/") || hasCRDAnywhereList ds

def hasCRDAnywhereList : List Chart → Bool
  | [] => false
  | d :: ds => hasCRDAnywhere d || hasCRDAnywhereList ds
end

mutual
/-- The ideal full strip (the spec's CRDStripper): filter the `crds/` files
of every node of the tree, unconditionally recursing into every dependency. -/
def stripAll : Chart → Chart
  | .mk m fs ts rw ds =>
    .mk m (fs.filter fun f => !strHasPre f.name "crds/") ts rw (stripAllList ds)

def stripAllList : List Chart → List Chart
  | [] => []
  | d :: ds => stripAll d :: stripAllList ds
end

mutual
/-- Does every dependency at every depth pass `depGuard`? (the condition
under which the code's recursion reaches the whole tree). -/
def allDepsGuarded : Chart → Bool
  | .mk _ _ _ _ ds => allDepsGuardedList ds

def allDepsGuardedList : List Chart → Bool
  | [] => true
  | d :: ds => (depGuard d && allDepsGuarded d) && allDepsGuardedList ds
end

mutual
/-- Erase the `files` list of every node, keeping everything else: two trees
with equal `eraseFiles` images agree on metadata, templates, raw files,
child count and child order at every level. -/
def eraseFiles : Chart → Chart
  | .mk m _ ts rw ds => .mk m [] ts rw (eraseFilesList ds)

def eraseFilesList : List Chart → List Chart
  | [] => []
  | d :: ds => eraseFiles d :: eraseFilesList ds
end

/-! ## `crdonly.go`: CRD collection -/

/-- `schema.GroupKind` (k8s.io/apimachinery). -/
structure GroupKind where
  group : String
  kind : String
deriving DecidableEq

/-- The fields of `crdv1.CustomResourceDefinition` read by `extractCRDKey`:
`APIVersion`, `Kind` (from TypeMeta), `Spec.Group`, `Spec.Names.Kind`. -/
structure CRDFields where
  apiVersion : String
  kind : String
  specGroup : String
  specNamesKind : String
deriving DecidableEq

/-- `extractCRDKey`, parametric in the YAML layer: `parseCRD` stands for
`yaml.Unmarshal` into a `crdv1.CustomResourceDefinition` (`none` = unmarshal
error).  Fails when unmarshalling fails, or when `crd.APIVersion == "" ||
crd.Kind != "CustomResourceDefinition"`; otherwise returns
`GroupKind{Group: crd.Spec.Group, Kind: crd.Spec.Names.Kind}`. -/
def extractCRDKey (parseCRD : String → Option CRDFields) (data : String) :
    Except String GroupKind :=
  match parseCRD data with
  | none => Except.error "unmarshal error"
  | some crd =>
    if crd.apiVersion = "" ∨ crd.kind ≠ "CustomResourceDefinition" then
      Except.error "not a valid CustomResourceDefinition"
    else
      Except.ok { group := crd.specGroup, kind := crd.specNamesKind }

/-- The warnings the commands print, as structured data (one constructor per
`fmt.Printf("Warning: ...")` site). -/
inductive Warning where
  | parseFailed (fileName sourceName errMsg : String)
  | duplicate (kind group sourceName existingSource : String)
  | docModifyFailed (errMsg : String)
deriving DecidableEq

/-- The accumulator of the collection phase: `crdMap` and `sourceMap` (Go
maps, modelled as insertion-ordered association lists whose keys are never
inserted twice), plus the warnings printed so far. -/
structure CollectState where
  crdMap : List (GroupKind × File)
  sourceMap : List (GroupKind × String)
  warnings : List Warning
deriving DecidableEq

/-- Association-list lookup (Go map read). -/
def lookupGK {β : Type} : List (GroupKind × β) → GroupKind → Option β
  | [], _ => none
  | (k, v) :: rest, key => if k = key then some v else lookupGK rest key

/-- The body of the `collectCRDs` loop for one CRD object `f`:
extraction failure → parse warning; key already in `sourceMap` → duplicate
warning, no overwrite; otherwise insert into both maps. -/
def collectFile (parseCRD : String → Option CRDFields) (sourceName : String)
    (st : CollectState) (f : File) : CollectState :=
  match extractCRDKey parseCRD f.data with
  | .error e => { st with warnings := st.warnings ++ [.parseFailed f.name sourceName e] }
  | .ok key =>
    match lookupGK st.sourceMap key with
    | some existingSource =>
      { st with
        warnings := st.warnings ++ [.duplicate key.kind key.group sourceName existingSource] }
    | none =>
      { st with
        crdMap := st.crdMap ++ [(key, f)]
        sourceMap := st.sourceMap ++ [(key, sourceName)] }

mutual
/-- helm `Chart.CRDObjects` (external collaborator, translated from the Helm
v3 SDK source): the chart's own files under `crds/` having a manifest
extension, followed by the CRD objects of each dependency, recursively. -/
def crdObjects : Chart → List File
  | .mk _ fs _ _ ds =>
    fs.filter (fun f => strHasPre f.name "crds/" && hasManifestExtension f.name) ++
      crdObjectsList ds

/-- The dependency loop of helm `Chart.CRDObjects`. -/
def crdObjectsList : List Chart → List File
  | [] => []
  | d :: ds => crdObjects d ++ crdObjectsList ds
end

/-- `collectCRDs`: iterate `ch.CRDObjects()` threading the accumulator. -/
def collectCRDs (parseCRD : String → Option CRDFields) (ch : Chart)
    (sourceName : String) (st : CollectState) : CollectState :=
  (crdObjects ch).foldl (collectFile parseCRD sourceName) st

/-- The collection phase of `NewCmdGenerateCRDOnlyChart`: first
`collectCRDs(ch, ch.Name(), ...)` on the loaded chart, then
`collectCRDs(dep, dep.Name(), ...)` for each top-level dependency. -/
def collectPhase (parseCRD : String → Option CRDFields) (ch : Chart) : CollectState :=
  let st := collectCRDs parseCRD ch ch.chartName ⟨[], [], []⟩
  ch.deps.foldl (fun st dep => collectCRDs parseCRD dep dep.chartName st) st

/-! ## `crdonly.go`: doc.yaml rewriting (`modifyDocYaml`) -/

/-- Generic YAML value as produced by `yaml.Unmarshal` into `map[string]any`:
a string, a nested map (association list; Go map iteration order is
irrelevant to the claims), or any other scalar/list value, which
`SetNestedField` only ever inspects for non-map-ness. -/
inductive YVal where
  | str (s : String)
  | map (entries : List (String × YVal))
  | other

abbrev YMap := List (String × YVal)

/-- Association-list read on a parsed YAML map. -/
def ymapGet : YMap → String → Option YVal
  | [], _ => none
  | (k, v) :: rest, key => if k = key then some v else ymapGet rest key

/-- Association-list write: overwrite the binding of `key` in place if
present, else append it. -/
def ymapSet : YMap → String → YVal → YMap
  | [], key, v => [(key, v)]
  | (k, w) :: rest, key, v =>
    if k = key then (k, v) :: rest else (k, w) :: ymapSet rest key v

/-- `unstructured.SetNestedField` (k8s.io/apimachinery, external
collaborator, translated from its source): walk the field path; descend into
an existing map, fail on an existing non-map value, create an intermediate
map for an absent key; write `value` at the final field.  The Go version
mutates nested maps through aliasing; the functional version writes the
updated submap back on the way out, which is the same result. -/
def setNestedField (m : YMap) (value : YVal) : List String → Except String YMap
  | [] => Except.ok m
  | [k] => Except.ok (ymapSet m k value)
  | k :: k' :: rest =>
    match ymapGet m k with
    | some (.map inner) =>
      match setNestedField inner value (k' :: rest) with
      | .error e => .error e
      | .ok inner2 => .ok (ymapSet m k (.map inner2))
    | some _ => .error ("value cannot be set because " ++ k ++ " is not a map")
    | none =>
      match setNestedField [] value (k' :: rest) with
      | .error e => .error e
      | .ok inner2 => .ok (ymapSet m k (.map inner2))

/-- `modifyDocYaml`, parametric in the YAML layer: `parseDoc` stands for
`yaml.Unmarshal` into `map[string]any` (`none` = error) and `marshal` for
`yaml.Marshal`.  Sets `project.name`, `project.shortName`, `chart.name`,
`release.name` to the new chart name, in that order, failing as soon as one
`SetNestedField` fails. -/
def modifyDocYaml (parseDoc : String → Option YMap) (marshal : YMap → String)
    (data newChartName : String) : Except String String :=
  match parseDoc data with
  | none => Except.error "unmarshal error"
  | some content =>
    match setNestedField content (.str newChartName) ["project", "name"] with
    | .error e => .error e
    | .ok c1 =>
      match setNestedField c1 (.str newChartName) ["project", "shortName"] with
      | .error e => .error e
      | .ok c2 =>
        match setNestedField c2 (.str newChartName) ["chart", "name"] with
        | .error e => .error e
        | .ok c3 =>
          match setNestedField c3 (.str newChartName) ["release", "name"] with
          | .error e => .error e
          | .ok c4 => .ok (marshal c4)

/-! ## The two pipelines' handling of `doc.yaml`

Both pipelines call `modifyDocYaml` on the first file named `doc.yaml` and
warn on failure; they differ in what then reaches the output.  The rewriter
argument `rw` stands for `fun data => modifyDocYaml parseDoc marshal data
newChartName`. -/

/-- The `for _, f := range ch.Files` loop of `NewCmdGenerateCRDLessChart`:
rewrite the data of the first file named `doc.yaml` (`break` after it); on
failure print a warning and leave the file as it was.  Returns the updated
file list and the warnings printed. -/
def crdlessDocRewrite (rw : String → Except String String) :
    List File → List File × List Warning
  | [] => ([], [])
  | f :: fs =>
    if f.name = "doc.yaml" then
      match rw f.data with
      | .error e => (f :: fs, [.docModifyFailed e])
      | .ok d => ({ f with data := d } :: fs, [])
    else
      (f :: (crdlessDocRewrite rw fs).1, (crdlessDocRewrite rw fs).2)

/-- The fixed allow-list `filesToCopy` of `NewCmdGenerateCRDOnlyChart`. -/
def filesToCopy : List String :=
  ["doc.yaml", "README.md", "values.yaml", "values.schema.json", ".helmignore"]

/-- One iteration of the `filesToCopy` loop: find the first file of `raw`
with the given name (`break` after the first hit); for `doc.yaml` include
the rewritten bytes only when the rewrite succeeds (on failure only a
warning is printed and nothing is appended); any other name is included
verbatim. -/
def copyStep (rw : String → Except String String) (raw : List File)
    (acc : List File × List Warning) (n : String) : List File × List Warning :=
  match raw.find? (fun f => f.name = n) with
  | none => acc
  | some f =>
    if n = "doc.yaml" then
      match rw f.data with
      | .error e => (acc.1, acc.2 ++ [.docModifyFailed e])
      | .ok d => (acc.1 ++ [⟨f.name, d⟩], acc.2)
    else
      (acc.1 ++ [f], acc.2)

/-- The `extraFiles` of `NewCmdGenerateCRDOnlyChart`: the allow-listed files
picked from `ch.Raw` (with `doc.yaml` rewritten), followed by every template
whose name starts with `templates/_`. -/
def extraFilesOf (rw : String → Except String String) (ch : Chart) :
    List File × List Warning :=
  ((filesToCopy.foldl (copyStep rw ch.raw) ([], [])).1 ++
      ch.templates.filter (fun f => strHasPre f.name "templates/_"),
    (filesToCopy.foldl (copyStep rw ch.raw) ([], [])).2)

/-! ## Derived notions used to state the claims -/

/-- The first file of a list whose `extractCRDKey` succeeds with key `k`. -/
def firstWithKey (p : String → Option CRDFields) (k : GroupKind) : List File → Option File
  | [] => none
  | f :: fs =>
    match extractCRDKey p f.data with
    | .ok k' => if k' = k then some f else firstWithKey p k fs
    | .error _ => firstWithKey p k fs

/-- The schema files owned by the node itself, in stored order: exactly the
files helm's `CRDObjects` gathers from the node before recursing. -/
def ownCRDFiles (c : Chart) : List File :=
  c.files.filter (fun f => strHasPre f.name "crds/" && hasManifestExtension f.name)

/-- The two accumulator maps are updated in lock step by the Go code, so
their key sequences coincide; states with this property are exactly those
where the association-list model and a Go map agree (no insert ever hits an
existing key). -/
def mapsAligned (st : CollectState) : Prop :=
  st.crdMap.map Prod.fst = st.sourceMap.map Prod.fst

instance (st : CollectState) : Decidable (mapsAligned st) := by
  unfold mapsAligned; infer_instance

/-- One iteration of the `collectCRDs` loop with the walked chart threaded
through as loop state: the Go loop body reads `f` and the maps but contains
no assignment to the chart, so the chart component is passed on unchanged. -/
def collectStep (p : String → Option CRDFields) (src : String) :
    Chart × CollectState → File → Chart × CollectState
  | (c, st), f => (c, collectFile p src st f)

/-- `collectCRDs` with the walked chart threaded through the iteration,
used to state that the walk is read-only on the tree. -/
def collectCRDsFrame (p : String → Option CRDFields) (c : Chart) (src : String)
    (st : CollectState) : Chart × CollectState :=
  (crdObjects c).foldl (collectStep p src) (c, st)

/-- A top-level key is compatible with `SetNestedField`: absent, or bound to
a map. -/
def okKeyB (content : YMap) (k : String) : Bool :=
  match ymapGet content k with
  | none => true
  | some (.map _) => true
  | some _ => false

/-! ## Helper lemmas: stripping -/

theorem filter_idem {α : Type} (p : α → Bool) (l : List α) :
    (l.filter p).filter p = l.filter p := by
  induction l with
  | nil => rfl
  | cons a l ih =>
    by_cases h : p a
    · simp [List.filter_cons, h, ih]
    · simp [List.filter_cons, h, ih]

theorem any_filter_not {α : Type} (p : α → Bool) (l : List α) :
    (l.filter fun a => !p a).any p = false := by
  induction l with
  | nil => rfl
  | cons a l ih =>
    by_cases h : p a
    · simp [List.filter_cons, h, ih]
    · simp [List.filter_cons, h, ih]

mutual
theorem removeCRDs_idem_aux : ∀ c : Chart,
    removeCRDsFromChart (removeCRDsFromChart c) = removeCRDsFromChart c
  | .mk _ fs _ _ ds => by
    simp only [removeCRDsFromChart, filter_idem, removeCRDsDeps_idem_aux ds]

theorem removeCRDsDeps_idem_aux : ∀ ds : List Chart,
    removeCRDsFromDeps (removeCRDsFromDeps ds) = removeCRDsFromDeps ds
  | [] => rfl
  | d :: ds => by
    simp only [removeCRDsFromDeps]
    refine congrArg₂ (· :: ·) ?_ (removeCRDsDeps_idem_aux ds)
    by_cases h : depGuard d = true
    · rw [if_pos h]
      by_cases h2 : depGuard (removeCRDsFromChart d) = true
      · rw [if_pos h2, removeCRDs_idem_aux d]
      · rw [if_neg h2]
    · rw [if_neg h, if_neg h]
end

mutual
theorem eraseFiles_strip_aux : ∀ c : Chart,
    eraseFiles (removeCRDsFromChart c) = eraseFiles c
  | .mk _ _ _ _ ds => by
    simp only [removeCRDsFromChart, eraseFiles, eraseFilesDeps_strip_aux ds]

theorem eraseFilesDeps_strip_aux : ∀ ds : List Chart,
    eraseFilesList (removeCRDsFromDeps ds) = eraseFilesList ds
  | [] => rfl
  | d :: ds => by
    simp only [removeCRDsFromDeps, eraseFilesList]
    refine congrArg₂ (· :: ·) ?_ (eraseFilesDeps_strip_aux ds)
    by_cases h : depGuard d = true
    · rw [if_pos h, eraseFiles_strip_aux d]
    · rw [if_neg h]
end

mutual
theorem stripAll_noCRD_aux : ∀ c : Chart, hasCRDAnywhere (stripAll c) = false
  | .mk _ fs _ _ ds => by
    simp only [stripAll, hasCRDAnywhere, stripAllList_noCRD_aux ds, Bool.or_false]
    exact any_filter_not (fun f => strHasPre f.name "crds/") fs

theorem stripAllList_noCRD_aux : ∀ ds : List Chart,
    hasCRDAnywhereList (stripAllList ds) = false
  | [] => rfl
  | d :: ds => by
    simp only [stripAllList, hasCRDAnywhereList, stripAll_noCRD_aux d,
      stripAllList_noCRD_aux ds, Bool.or_self]
end

mutual
theorem strip_eq_stripAll_aux : ∀ c : Chart, allDepsGuarded c = true →
    removeCRDsFromChart c = stripAll c
  | .mk _ _ _ _ ds => fun h => by
    simp only [allDepsGuarded] at h
    simp only [removeCRDsFromChart, stripAll, stripDeps_eq_stripAllList_aux ds h]

theorem stripDeps_eq_stripAllList_aux : ∀ ds : List Chart, allDepsGuardedList ds = true →
    removeCRDsFromDeps ds = stripAllList ds
  | [], _ => rfl
  | d :: ds, h => by
    simp only [allDepsGuardedList, Bool.and_eq_true] at h
    obtain ⟨⟨hg, ha⟩, hrest⟩ := h
    simp only [removeCRDsFromDeps, stripAllList]
    rw [if_pos hg, strip_eq_stripAll_aux d ha, stripDeps_eq_stripAllList_aux ds hrest]
end

/-! ## Helper lemmas: collection -/

theorem lookupGK_append_some {β : Type} {m : List (GroupKind × β)} {k : GroupKind} {v : β}
    (m' : List (GroupKind × β)) (h : lookupGK m k = some v) :
    lookupGK (m ++ m') k = some v := by
  induction m with
  | nil => simp [lookupGK] at h
  | cons a m ih =>
    obtain ⟨k', v'⟩ := a
    simp only [lookupGK, List.cons_append] at h ⊢
    by_cases hk : k' = k
    · rw [if_pos hk] at h ⊢; exact h
    · rw [if_neg hk] at h ⊢; exact ih h

theorem lookupGK_append_none {β : Type} {m : List (GroupKind × β)} {k : GroupKind}
    (m' : List (GroupKind × β)) (h : lookupGK m k = none) :
    lookupGK (m ++ m') k = lookupGK m' k := by
  induction m with
  | nil => rfl
  | cons a m ih =>
    obtain ⟨k', v'⟩ := a
    simp only [lookupGK, List.cons_append] at h ⊢
    by_cases hk : k' = k
    · rw [if_pos hk] at h; exact absurd h (by simp)
    · rw [if_neg hk] at h ⊢; exact ih h

theorem lookupGK_none_iff {β : Type} {m : List (GroupKind × β)} {k : GroupKind} :
    lookupGK m k = none ↔ k ∉ m.map Prod.fst := by
  induction m with
  | nil => simp [lookupGK]
  | cons a m ih =>
    obtain ⟨k', v'⟩ := a
    simp only [lookupGK, List.map_cons, List.mem_cons]
    by_cases hk : k' = k
    · subst hk; simp
    · rw [if_neg hk]
      rw [ih]
      constructor
      · intro hm hc
        rcases hc with hc | hc
        · exact hk hc.symm
        · exact hm hc
      · intro hm hc
        exact hm (Or.inr hc)

theorem aligned_none_transfer {st : CollectState} {k : GroupKind}
    (hal : mapsAligned st) (h : lookupGK st.sourceMap k = none) :
    lookupGK st.crdMap k = none := by
  rw [lookupGK_none_iff] at h ⊢
  rw [mapsAligned] at hal
  rw [hal]
  exact h

theorem collectFile_error {p : String → Option CRDFields} {src : String}
    {st : CollectState} {f : File} {e : String}
    (h : extractCRDKey p f.data = .error e) :
    collectFile p src st f =
      { st with warnings := st.warnings ++ [.parseFailed f.name src e] } := by
  unfold collectFile
  rw [h]

theorem collectFile_dup {p : String → Option CRDFields} {src : String}
    {st : CollectState} {f : File} {k : GroupKind} {es : String}
    (hk : extractCRDKey p f.data = .ok k) (hs : lookupGK st.sourceMap k = some es) :
    collectFile p src st f =
      { st with warnings := st.warnings ++ [.duplicate k.kind k.group src es] } := by
  unfold collectFile
  rw [hk]
  simp only [hs]

theorem collectFile_insert {p : String → Option CRDFields} {src : String}
    {st : CollectState} {f : File} {k : GroupKind}
    (hk : extractCRDKey p f.data = .ok k) (hs : lookupGK st.sourceMap k = none) :
    collectFile p src st f =
      { st with crdMap := st.crdMap ++ [(k, f)], sourceMap := st.sourceMap ++ [(k, src)] } := by
  unfold collectFile
  rw [hk]
  simp only [hs]

theorem collectFile_crdMap_persist {p : String → Option CRDFields} {src : String}
    {st : CollectState} {f : File} {k : GroupKind} {v : File}
    (h : lookupGK st.crdMap k = some v) :
    lookupGK (collectFile p src st f).crdMap k = some v := by
  cases hE : extractCRDKey p f.data with
  | error e => rw [collectFile_error hE]; exact h
  | ok k' =>
    cases hS : lookupGK st.sourceMap k' with
    | some es => rw [collectFile_dup hE hS]; exact h
    | none => rw [collectFile_insert hE hS]; exact lookupGK_append_some _ h

theorem collectFile_sourceMap_none {p : String → Option CRDFields} {src : String}
    {st : CollectState} {f : File} {k : GroupKind}
    (h : lookupGK st.sourceMap k = none) (hnot : extractCRDKey p f.data ≠ .ok k) :
    lookupGK (collectFile p src st f).sourceMap k = none := by
  cases hE : extractCRDKey p f.data with
  | error e => rw [collectFile_error hE]; exact h
  | ok k' =>
    have hkk : k' ≠ k := by
      intro hc
      exact hnot (hc ▸ hE)
    cases hS : lookupGK st.sourceMap k' with
    | some es => rw [collectFile_dup hE hS]; exact h
    | none =>
      rw [collectFile_insert hE hS]
      show lookupGK (st.sourceMap ++ [(k', src)]) k = none
      rw [lookupGK_append_none _ h]
      simp [lookupGK, hkk]

theorem collectFile_aligned {p : String → Option CRDFields} {src : String}
    {st : CollectState} {f : File} (h : mapsAligned st) :
    mapsAligned (collectFile p src st f) := by
  cases hE : extractCRDKey p f.data with
  | error e => rw [collectFile_error hE]; exact h
  | ok k' =>
    cases hS : lookupGK st.sourceMap k' with
    | some es => rw [collectFile_dup hE hS]; exact h
    | none =>
      rw [collectFile_insert hE hS]
      show (st.crdMap ++ [(k', f)]).map Prod.fst = (st.sourceMap ++ [(k', src)]).map Prod.fst
      rw [List.map_append, List.map_append, h]
      rfl

theorem collectFile_nodup {p : String → Option CRDFields} {src : String}
    {st : CollectState} {f : File} (hal : mapsAligned st)
    (hnd : (st.crdMap.map Prod.fst).Nodup) :
    ((collectFile p src st f).crdMap.map Prod.fst).Nodup := by
  cases hE : extractCRDKey p f.data with
  | error e => rw [collectFile_error hE]; exact hnd
  | ok k' =>
    cases hS : lookupGK st.sourceMap k' with
    | some es => rw [collectFile_dup hE hS]; exact hnd
    | none =>
      rw [collectFile_insert hE hS]
      show ((st.crdMap ++ [(k', f)]).map Prod.fst).Nodup
      have hout : k' ∉ st.crdMap.map Prod.fst :=
        lookupGK_none_iff.mp (aligned_none_transfer hal hS)
      rw [List.map_append]
      rw [List.nodup_append]
      refine ⟨hnd, by simp, ?_⟩
      intro a ha hb
      simp only [List.map_cons, List.map_nil, List.mem_singleton] at hb
      exact hout (hb ▸ ha)

theorem foldl_collectFile_persist (p : String → Option CRDFields) (src : String)
    (k : GroupKind) (v : File) :
    ∀ (fs : List File) (st : CollectState), lookupGK st.crdMap k = some v →
      lookupGK (fs.foldl (collectFile p src) st).crdMap k = some v := by
  intro fs
  induction fs with
  | nil => intro st h; exact h
  | cons f fs ih =>
    intro st h
    exact ih _ (collectFile_crdMap_persist h)

theorem foldl_collectFile_inv (p : String → Option CRDFields) (src : String) :
    ∀ (fs : List File) (st : CollectState), mapsAligned st →
      (st.crdMap.map Prod.fst).Nodup →
      mapsAligned (fs.foldl (collectFile p src) st) ∧
        ((fs.foldl (collectFile p src) st).crdMap.map Prod.fst).Nodup := by
  intro fs
  induction fs with
  | nil => intro st h1 h2; exact ⟨h1, h2⟩
  | cons f fs ih =>
    intro st h1 h2
    exact ih _ (collectFile_aligned h1) (collectFile_nodup h1 h2)

theorem foldl_collectFile_first (p : String → Option CRDFields) (src : String)
    (k : GroupKind) (f : File) :
    ∀ (fs : List File) (st : CollectState), mapsAligned st →
      lookupGK st.sourceMap k = none → firstWithKey p k fs = some f →
      lookupGK (fs.foldl (collectFile p src) st).crdMap k = some f := by
  intro fs
  induction fs with
  | nil => intro st _ _ hfirst; exact absurd hfirst (by simp [firstWithKey])
  | cons f0 fs ih =>
    intro st hal hnone hfirst
    cases hE : extractCRDKey p f0.data with
    | error e =>
      simp only [firstWithKey, hE] at hfirst
      show lookupGK ((fs.foldl (collectFile p src) (collectFile p src st f0))).crdMap k = some f
      rw [collectFile_error hE]
      exact ih _ hal hnone hfirst
    | ok k0 =>
      simp only [firstWithKey, hE] at hfirst
      by_cases hk : k0 = k
      · rw [if_pos hk] at hfirst
        injection hfirst with hf
        subst hf
        subst hk
        have hcnone : lookupGK st.crdMap k0 = none := aligned_none_transfer hal hnone
        show lookupGK ((fs.foldl (collectFile p src) (collectFile p src st f0))).crdMap k0
            = some f0
        apply foldl_collectFile_persist
        rw [collectFile_insert hE hnone]
        show lookupGK (st.crdMap ++ [(k0, f0)]) k0 = some f0
        rw [lookupGK_append_none _ hcnone]
        simp [lookupGK]
      · rw [if_neg hk] at hfirst
        have hnot : extractCRDKey p f0.data ≠ .ok k := by
          rw [hE]
          intro hc
          exact hk (by injection hc)
        show lookupGK ((fs.foldl (collectFile p src) (collectFile p src st f0))).crdMap k = some f
        exact ih _ (collectFile_aligned hal) (collectFile_sourceMap_none hnone hnot) hfirst

theorem crdObjects_eq (c : Chart) :
    crdObjects c = ownCRDFiles c ++ crdObjectsList c.deps := by
  cases c
  rfl

theorem collectCRDs_persist {p : String → Option CRDFields} {ch : Chart} {src : String}
    {st : CollectState} {k : GroupKind} {v : File}
    (h : lookupGK st.crdMap k = some v) :
    lookupGK (collectCRDs p ch src st).crdMap k = some v :=
  foldl_collectFile_persist p src k v (crdObjects ch) st h

theorem depsFold_persist (p : String → Option CRDFields) (k : GroupKind) (v : File) :
    ∀ (ds : List Chart) (st : CollectState), lookupGK st.crdMap k = some v →
      lookupGK ((ds.foldl (fun st dep => collectCRDs p dep dep.chartName st) st)).crdMap k
        = some v := by
  intro ds
  induction ds with
  | nil => intro st h; exact h
  | cons d ds ih =>
    intro st h
    exact ih _ (collectCRDs_persist h)

theorem depsFold_inv (p : String → Option CRDFields) :
    ∀ (ds : List Chart) (st : CollectState), mapsAligned st →
      (st.crdMap.map Prod.fst).Nodup →
      (((ds.foldl (fun st dep => collectCRDs p dep dep.chartName st) st)).crdMap.map
          Prod.fst).Nodup := by
  intro ds
  induction ds with
  | nil => intro st _ h2; exact h2
  | cons d ds ih =>
    intro st h1 h2
    have h' := foldl_collectFile_inv p d.chartName (crdObjects d) st h1 h2
    exact ih _ h'.1 h'.2

theorem collectPhase_nodup (p : String → Option CRDFields) (c : Chart) :
    ((collectPhase p c).crdMap.map Prod.fst).Nodup := by
  unfold collectPhase
  apply depsFold_inv
  · exact (foldl_collectFile_inv p c.chartName (crdObjects c) ⟨[], [], []⟩ rfl (by simp)).1
  · exact (foldl_collectFile_inv p c.chartName (crdObjects c) ⟨[], [], []⟩ rfl (by simp)).2

/-! ## Helper lemmas: doc.yaml rewriting -/

theorem ymapGet_set_self (m : YMap) (k : String) (v : YVal) :
    ymapGet (ymapSet m k v) k = some v := by
  induction m with
  | nil => simp [ymapSet, ymapGet]
  | cons a m ih =>
    obtain ⟨k', w⟩ := a
    by_cases h : k' = k
    · simp [ymapSet, ymapGet, h]
    · simp only [ymapSet, ymapGet, if_neg h]
      exact ih

theorem ymapGet_set_other (m : YMap) (k k' : String) (v : YVal) (h : k ≠ k') :
    ymapGet (ymapSet m k v) k' = ymapGet m k' := by
  induction m with
  | nil => simp [ymapSet, ymapGet, h]
  | cons a m ih =>
    obtain ⟨k0, w⟩ := a
    by_cases h0 : k0 = k
    · subst h0
      simp [ymapSet, ymapGet, h]
    · simp only [ymapSet, if_neg h0, ymapGet]
      by_cases h1 : k0 = k'
      · rw [if_pos h1, if_pos h1]
      · rw [if_neg h1, if_neg h1]
        exact ih

theorem bool_ne_true {b : Bool} (h : ¬b = true) : b = false := by
  cases b
  · rfl
  · exact absurd rfl h

theorem okKeyB_set_other (m : YMap) (k k' : String) (v : YVal) (h : k ≠ k') :
    okKeyB (ymapSet m k v) k' = okKeyB m k' := by
  unfold okKeyB
  rw [ymapGet_set_other m k k' v h]

theorem okKeyB_set_map (m : YMap) (k : String) (inner : YMap) :
    okKeyB (ymapSet m k (.map inner)) k = true := by
  unfold okKeyB
  rw [ymapGet_set_self]

theorem setNF2_ok (m : YMap) (v : YVal) (k k2 : String) (h : okKeyB m k = true) :
    ∃ inner, setNestedField m v [k, k2] = .ok (ymapSet m k (.map inner)) := by
  unfold okKeyB at h
  revert h
  unfold setNestedField
  cases hG : ymapGet m k with
  | none =>
    intro _
    exact ⟨ymapSet [] k2 v, by simp [setNestedField]⟩
  | some val =>
    cases val with
    | map inner =>
      intro _
      exact ⟨ymapSet inner k2 v, by simp [setNestedField]⟩
    | str s => intro h; simp at h
    | other => intro h; simp at h

theorem setNF2_err (m : YMap) (v : YVal) (k k2 : String) (h : okKeyB m k = false) :
    setNestedField m v [k, k2] =
      .error ("value cannot be set because " ++ k ++ " is not a map") := by
  unfold okKeyB at h
  revert h
  unfold setNestedField
  cases hG : ymapGet m k with
  | none => intro h; simp at h
  | some val =>
    cases val with
    | map inner => intro h; simp at h
    | str s => intro _; rfl
    | other => intro _; rfl

theorem modifyDocYaml_isOk (parseDoc : String → Option YMap) (marshal : YMap → String)
    (data newName : String) :
    (modifyDocYaml parseDoc marshal data newName).isOk = true ↔
      ∃ content, parseDoc data = some content ∧ okKeyB content "project" = true ∧
        okKeyB content "chart" = true ∧ okKeyB content "release" = true := by
  unfold modifyDocYaml
  cases hP : parseDoc data with
  | none => simp [Except.isOk, Except.toBool]
  | some c =>
    by_cases h1 : okKeyB c "project" = true
    · obtain ⟨i1, e1⟩ := setNF2_ok c (.str newName) "project" "name" h1
      simp only [e1]
      obtain ⟨i2, e2⟩ := setNF2_ok _ (.str newName) "project" "shortName"
        (okKeyB_set_map c "project" i1)
      simp only [e2]
      have hch : okKeyB (ymapSet (ymapSet c "project" (.map i1)) "project" (.map i2))
          "chart" = okKeyB c "chart" := by
        rw [okKeyB_set_other _ _ _ _ (by decide), okKeyB_set_other _ _ _ _ (by decide)]
      by_cases h2 : okKeyB c "chart" = true
      · obtain ⟨i3, e3⟩ := setNF2_ok _ (.str newName) "chart" "name" (hch.trans h2)
        simp only [e3]
        have hre : okKeyB (ymapSet (ymapSet (ymapSet c "project" (.map i1)) "project"
            (.map i2)) "chart" (.map i3)) "release" = okKeyB c "release" := by
          rw [okKeyB_set_other _ _ _ _ (by decide), okKeyB_set_other _ _ _ _ (by decide),
            okKeyB_set_other _ _ _ _ (by decide)]
        by_cases h3 : okKeyB c "release" = true
        · obtain ⟨i4, e4⟩ := setNF2_ok _ (.str newName) "release" "name" (hre.trans h3)
          simp only [e4]
          apply iff_of_true
          · rfl
          · exact ⟨c, rfl, h1, h2, h3⟩
        · rw [setNF2_err _ (.str newName) "release" "name" (hre.trans (bool_ne_true h3))]
          apply iff_of_false
          · simp [Except.isOk, Except.toBool]
          · rintro ⟨content, hc, _, _, hp⟩
            injection hc with hcc
            subst hcc
            exact h3 hp
      · rw [setNF2_err _ (.str newName) "chart" "name" (hch.trans (bool_ne_true h2))]
        apply iff_of_false
        · simp [Except.isOk, Except.toBool]
        · rintro ⟨content, hc, _, hp, _⟩
          injection hc with hcc
          subst hcc
          exact h2 hp
    · simp only [setNF2_err c (.str newName) "project" "name" (bool_ne_true h1)]
      apply iff_of_false
      · simp [Except.isOk, Except.toBool]
      · rintro ⟨content, hc, hp, _, _⟩
        injection hc with hcc
        subst hcc
        exact h1 hp

/-! ## Helper lemmas: the two pipelines' doc.yaml handling -/

theorem crdlessDocRewrite_err (rw' : String → Except String String) (e : String) :
    ∀ (pre : List File) (f : File) (post : List File),
      (∀ g ∈ pre, g.name ≠ "doc.yaml") → f.name = "doc.yaml" → rw' f.data = .error e →
      crdlessDocRewrite rw' (pre ++ f :: post) =
        (pre ++ f :: post, [.docModifyFailed e]) := by
  intro pre
  induction pre with
  | nil =>
    intro f post _ hn he
    simp [crdlessDocRewrite, hn, he]
  | cons g pre ih =>
    intro f post hpre hn he
    have hg : ¬g.name = "doc.yaml" := hpre g (List.mem_cons_self g pre)
    have ihh := ih f post (fun x hx => hpre x (List.mem_cons_of_mem g hx)) hn he
    simp only [List.cons_append, crdlessDocRewrite, if_neg hg, List.append_eq, ihh]

theorem copyStep_none {rw' : String → Except String String} {raw : List File}
    {acc : List File × List Warning} {n : String}
    (h : raw.find? (fun g => g.name = n) = none) :
    copyStep rw' raw acc n = acc := by
  unfold copyStep
  rw [h]

theorem copyStep_doc_err {rw' : String → Except String String} {raw : List File}
    {acc : List File × List Warning} {f : File} {e : String}
    (h : raw.find? (fun g => g.name = "doc.yaml") = some f)
    (he : rw' f.data = .error e) :
    copyStep rw' raw acc "doc.yaml" = (acc.1, acc.2 ++ [.docModifyFailed e]) := by
  unfold copyStep
  rw [h]
  simp [he]

theorem copyStep_doc_ok {rw' : String → Except String String} {raw : List File}
    {acc : List File × List Warning} {f : File} {d : String}
    (h : raw.find? (fun g => g.name = "doc.yaml") = some f)
    (he : rw' f.data = .ok d) :
    copyStep rw' raw acc "doc.yaml" = (acc.1 ++ [⟨f.name, d⟩], acc.2) := by
  unfold copyStep
  rw [h]
  simp [he]

theorem copyStep_other {rw' : String → Except String String} {raw : List File}
    {acc : List File × List Warning} {n : String} {f : File}
    (h : raw.find? (fun g => g.name = n) = some f) (hn : ¬n = "doc.yaml") :
    copyStep rw' raw acc n = (acc.1 ++ [f], acc.2) := by
  unfold copyStep
  rw [h]
  simp [hn]

theorem copyStep_warn_mono {rw' : String → Except String String} {raw : List File}
    {acc : List File × List Warning} {n : String} {w : Warning}
    (h : w ∈ acc.2) : w ∈ (copyStep rw' raw acc n).2 := by
  cases hF : raw.find? (fun g => g.name = n) with
  | none => rw [copyStep_none hF]; exact h
  | some f =>
    by_cases hn : n = "doc.yaml"
    · subst hn
      cases hE : rw' f.data with
      | error e => rw [copyStep_doc_err hF hE]; exact List.mem_append_left _ h
      | ok d => rw [copyStep_doc_ok hF hE]; exact h
    · rw [copyStep_other hF hn]; exact h

theorem copyFold_warn_mono (rw' : String → Except String String) (raw : List File)
    (w : Warning) :
    ∀ (names : List String) (acc : List File × List Warning),
      w ∈ acc.2 → w ∈ (names.foldl (copyStep rw' raw) acc).2 := by
  intro names
  induction names with
  | nil => intro acc h; exact h
  | cons n names ih =>
    intro acc h
    show w ∈ (names.foldl (copyStep rw' raw) (copyStep rw' raw acc n)).2
    exact ih _ (copyStep_warn_mono h)

theorem copyFold_no_doc (rw' : String → Except String String) (raw : List File)
    (hdoc : ∀ f, raw.find? (fun g => g.name = "doc.yaml") = some f →
      ∃ e, rw' f.data = .error e) :
    ∀ (names : List String) (acc : List File × List Warning),
      (∀ g ∈ acc.1, g.name ≠ "doc.yaml") →
      ∀ g ∈ (names.foldl (copyStep rw' raw) acc).1, g.name ≠ "doc.yaml" := by
  intro names
  induction names with
  | nil => intro acc hacc; exact hacc
  | cons n names ih =>
    intro acc hacc
    show ∀ g ∈ (names.foldl (copyStep rw' raw) (copyStep rw' raw acc n)).1,
      g.name ≠ "doc.yaml"
    apply ih
    cases hF : raw.find? (fun g => g.name = n) with
    | none => rw [copyStep_none hF]; exact hacc
    | some f =>
      by_cases hn : n = "doc.yaml"
      · subst hn
        obtain ⟨e, he⟩ := hdoc f hF
        rw [copyStep_doc_err hF he]
        exact hacc
      · rw [copyStep_other hF hn]
        intro g hg
        rcases List.mem_append.mp hg with hg | hg
        · exact hacc g hg
        · have hgf : g = f := by simpa using hg
          subst hgf
          have hfn : g.name = n := by
            have hd := List.find?_some hF
            simpa using hd
          rw [hfn]
          exact hn

theorem extraFiles_doc_dropped (rw' : String → Except String String) (c : Chart)
    (f : File) (e : String)
    (hF : c.raw.find? (fun g => g.name = "doc.yaml") = some f)
    (he : rw' f.data = .error e) :
    (∀ g ∈ (extraFilesOf rw' c).1, g.name ≠ "doc.yaml") ∧
      Warning.docModifyFailed e ∈ (extraFilesOf rw' c).2 := by
  constructor
  · intro g hg
    unfold extraFilesOf at hg
    rcases List.mem_append.mp hg with hg | hg
    · refine copyFold_no_doc rw' c.raw ?_ filesToCopy ([], []) (by simp) g hg
      intro f' hf'
      rw [hF] at hf'
      injection hf' with hff
      subst hff
      exact ⟨e, he⟩
    · have hmem := List.mem_filter.mp hg
      intro hdocname
      rw [hdocname] at hmem
      exact absurd hmem.2 (by decide)
  · have h1 : Warning.docModifyFailed e ∈ (copyStep rw' c.raw ([], []) "doc.yaml").2 := by
      rw [copyStep_doc_err hF he]
      simp
    exact copyFold_warn_mono rw' c.raw _
      ["README.md", "values.yaml", "values.schema.json", ".helmignore"] _ h1

/-! ## Helper lemma: the collection walk is read-only on the chart -/

theorem foldl_collectStep (p : String → Option CRDFields) (src : String) :
    ∀ (fs : List File) (c : Chart) (st : CollectState),
      fs.foldl (collectStep p src) (c, st) = (c, fs.foldl (collectFile p src) st) := by
  intro fs
  induction fs with
  | nil => intro c st; rfl
  | cons f fs ih => intro c st; exact ih c (collectFile p src st f)

/-! ## Concrete sample data used by witnesses, counterexamples and failing
evaluations -/

/-- A sample CRD parser: two byte strings parse to valid schema documents
with the same identity key (g, Foo); everything else fails to unmarshal. -/
def sampleParse : String → Option CRDFields := fun s =>
  if s = "rootdata" then
    some ⟨"apiextensions.k8s.io/v1", "CustomResourceDefinition", "g", "Foo"⟩
  else if s = "depdata" then
    some ⟨"apiextensions.k8s.io/v1", "CustomResourceDefinition", "g", "Foo"⟩
  else none

/-- Scenario A dependency: defines (g, Foo) with its own content. -/
def sampleDep : Chart :=
  .mk (some ⟨"mydep", "1.0.0", "", []⟩) [⟨"crds/bar.yaml", "depdata"⟩] [] [] []

/-- Scenario A root: defines (g, Foo) in its own schema file and depends on
`sampleDep`. -/
def sampleRoot : Chart :=
  .mk (some ⟨"root", "1.0.0", "", []⟩) [⟨"crds/foo.yaml", "rootdata"⟩] [] [] [sampleDep]

/-- A grandchild dependency holding a schema file. -/
def shieldedGrandchild : Chart :=
  .mk (some ⟨"b", "1.0.0", "", []⟩) [⟨"crds/x.yaml", "xx"⟩] [] [] []

/-- A dependency with an empty file list whose child still has a schema
file: the stripping recursion stops at this node. -/
def emptyFilesDep : Chart :=
  .mk (some ⟨"a", "1.0.0", "", []⟩) [] [] [] [shieldedGrandchild]

/-- Root of the tree on which stripping misses a schema file at depth two. -/
def c6Root : Chart :=
  .mk (some ⟨"root", "1.0.0", "", []⟩)
    [⟨"crds/r.yaml", "rr"⟩, ⟨"values.yaml", "v"⟩] [] [] [emptyFilesDep]

/-- A dependency passing the recursion guard. -/
def guardedDep : Chart :=
  .mk (some ⟨"d", "1.0.0", "", []⟩)
    [⟨"crds/x.yaml", "x"⟩, ⟨"templates/t.txt", "t"⟩] [] [] []

/-- A tree all of whose dependencies pass the recursion guard. -/
def guardedRoot : Chart :=
  .mk (some ⟨"r", "1.0.0", "", []⟩) [⟨"crds/r.yaml", "r"⟩] [] [] [guardedDep]

/-- A document rewriter that fails on every input (any unparseable
doc.yaml behaves like this). -/
def failingRewrite : String → Except String String := fun _ => Except.error "bad"

/-- A chart whose only raw file is the documentation descriptor. -/
def docOnlyChart : Chart :=
  .mk (some ⟨"c", "1.0.0", "", []⟩) [⟨"doc.yaml", "orig"⟩] [] [⟨"doc.yaml", "orig"⟩] []

/-- An accumulator state already binding (g, Foo) to the root's file, with
the two maps aligned. -/
def seededState : CollectState :=
  ⟨[(⟨"g", "Foo"⟩, ⟨"crds/foo.yaml", "rootdata"⟩)], [(⟨"g", "Foo"⟩, "root")], []⟩

/-- A doc parser returning a document whose `project` key holds a plain
string. -/
def docParseBad : String → Option YMap := fun _ => some [("project", YVal.str "hello")]

/-- A trivial marshaller. -/
def docMarshal : YMap → String := fun _ => ""

/-! ## The claims -/

/-- C1 (Precedence of collection): for every bundle tree whose root node owns
a schema file extracting to identity key `k` — `f` being the first such file
in the root's stored order — while some dependency node, at any depth, also
owns a schema file extracting to `k`, the document retained in the
collection result for `k` is the root's file `f`, never the dependency's:
the root's own files are walked before any dependency file and an inserted
key is never overwritten. -/
theorem collect_precedence_root_wins (p : String → Option CRDFields) (c : Chart)
    (k : GroupKind) (f : File)
    (hroot : firstWithKey p k (ownCRDFiles c) = some f)
    (hdep : ∃ g ∈ crdObjectsList c.deps, extractCRDKey p g.data = Except.ok k) :
    lookupGK (collectPhase p c).crdMap k = some f := by
  have hmain : lookupGK (collectCRDs p c c.chartName ⟨[], [], []⟩).crdMap k = some f := by
    unfold collectCRDs
    rw [crdObjects_eq, List.foldl_append]
    exact foldl_collectFile_persist p c.chartName k f (crdObjectsList c.deps) _
      (foldl_collectFile_first p c.chartName k f (ownCRDFiles c) ⟨[], [], []⟩ rfl rfl hroot)
  show lookupGK ((c.deps.foldl (fun st dep => collectCRDs p dep dep.chartName st)
      (collectCRDs p c c.chartName ⟨[], [], []⟩))).crdMap k = some f
  exact depsFold_persist p k f c.deps _ hmain

/-- Witness for C1 at Scenario A: root and dependency both define (g, Foo);
the retained document is the root's `crds/foo.yaml`. -/
theorem collect_precedence_root_wins_witness :
    lookupGK (collectPhase sampleParse sampleRoot).crdMap ⟨"g", "Foo"⟩ =
      some ⟨"crds/foo.yaml", "rootdata"⟩ :=
  collect_precedence_root_wins sampleParse sampleRoot ⟨"g", "Foo"⟩
    ⟨"crds/foo.yaml", "rootdata"⟩ (by decide)
    ⟨⟨"crds/bar.yaml", "depdata"⟩, by decide, rfl⟩

/-- C2 (Duplicate diagnostic — failing evaluation): in Scenario A (root owns
one schema file with key (g, Foo); exactly one dependency also defines
(g, Foo)), the code emits TWO duplicate warnings, not one, and the first of
them names the root itself as the chart in which the duplicate was found:
helm's `CRDObjects` already includes dependency files in the walk of the
root chart, so the dependency's file is visited twice — once attributed to
the root and once to the dependency.  The retained document is still the
root's. -/
theorem collect_duplicate_warning_eval :
    (collectPhase sampleParse sampleRoot).warnings =
      [Warning.duplicate "Foo" "g" "root" "root",
       Warning.duplicate "Foo" "g" "mydep" "root"] ∧
    lookupGK (collectPhase sampleParse sampleRoot).crdMap ⟨"g", "Foo"⟩ =
      some ⟨"crds/foo.yaml", "rootdata"⟩ := by
  exact ⟨by decide, by decide⟩

/-- C3 (Uniqueness and first-writer-wins): (1) for every input tree the
collection result maps each (group, kind) key to at most one document — the
key sequence of the accumulated map has no duplicates; (2) from any aligned
accumulator state (the two maps carry the same key sequence, as they do in
every state the code can reach), once a key is bound to a file, running the
collector over any further chart never rebinds it. -/
theorem collect_unique_first_writer_wins :
    (∀ (p : String → Option CRDFields) (c : Chart),
      ((collectPhase p c).crdMap.map Prod.fst).Nodup) ∧
    (∀ (p : String → Option CRDFields) (c : Chart) (src : String)
      (st : CollectState) (k : GroupKind) (f : File),
      mapsAligned st → lookupGK st.crdMap k = some f →
      lookupGK (collectCRDs p c src st).crdMap k = some f) :=
  ⟨fun p c => collectPhase_nodup p c,
   fun _ _ _ _ _ _ _ h => collectCRDs_persist h⟩

/-- Witness for C3: a state already binding (g, Foo) to the root's file
keeps that binding after collecting a dependency that defines (g, Foo)
again. -/
theorem collect_unique_first_writer_wins_witness :
    lookupGK (collectCRDs sampleParse sampleDep "mydep" seededState).crdMap
      ⟨"g", "Foo"⟩ = some ⟨"crds/foo.yaml", "rootdata"⟩ :=
  collect_unique_first_writer_wins.2 sampleParse sampleDep "mydep" seededState
    ⟨"g", "Foo"⟩ ⟨"crds/foo.yaml", "rootdata"⟩ (by decide) (by decide)

/-- C4 (Idempotence of stripping): applying the CRD-stripping transform
twice yields the same tree as applying it once, for every bundle tree; in
particular stripping an already-stripped tree changes nothing. -/
theorem removeCRDs_idempotent (c : Chart) :
    removeCRDsFromChart (removeCRDsFromChart c) = removeCRDsFromChart c :=
  removeCRDs_idem_aux c

/-- C5 (Shape preservation of stripping): the stripped tree agrees with the
input tree on everything except file lists — erasing the files of both
trees yields identical trees — so name, metadata, templates, raw files,
node count, child-list length and child ordering are preserved at every
level, and children are never pruned. -/
theorem removeCRDs_shape_preserving (c : Chart) :
    eraseFiles (removeCRDsFromChart c) = eraseFiles c :=
  eraseFiles_strip_aux c

/-- C6 counterexample: `removeCRDsFromChart` recurses into a dependency only
when it has metadata and a non-empty file list.  In `c6Root` the dependency
has no files of its own, so the walk stops there and the grandchild's
`crds/x.yaml` survives stripping: a node of the stripped tree still holds a
file under the reserved schema prefix, refuting the claim as stated. -/
theorem removeCRDs_incomplete_counterexample :
    hasCRDAnywhere (removeCRDsFromChart c6Root) = true := by decide

/-- C6 amended (Completeness of stripping on guarded trees): provided every
dependency at every depth passes the code's recursion guard (metadata
present and a non-empty file list), the stripped tree retains no file under
`crds/` at any depth, and equals the ideal stripper that filters every
node's file list — so every file not under the prefix is retained unchanged,
in order, at every node. -/
theorem removeCRDs_complete_on_guarded (c : Chart) (h : allDepsGuarded c = true) :
    hasCRDAnywhere (removeCRDsFromChart c) = false ∧
      removeCRDsFromChart c = stripAll c := by
  have he := strip_eq_stripAll_aux c h
  constructor
  · rw [he]
    exact stripAll_noCRD_aux c
  · exact he

/-- Witness for the amended C6 on a concrete guarded tree. -/
theorem removeCRDs_complete_on_guarded_witness :
    hasCRDAnywhere (removeCRDsFromChart guardedRoot) = false ∧
      removeCRDsFromChart guardedRoot = stripAll guardedRoot :=
  removeCRDs_complete_on_guarded guardedRoot (by decide)

/-- C7 counterexample: with a rewriter that fails on the descriptor (as for
any unparseable doc.yaml), the CRD-only pipeline emits the warning but drops
the descriptor entirely — the original bytes "orig" are NOT included in its
extra files — refuting best-effort inclusion "in both pipelines". -/
theorem rewrite_failure_drops_doc_counterexample :
    (extraFilesOf failingRewrite docOnlyChart).1 = [] ∧
      (extraFilesOf failingRewrite docOnlyChart).2 =
        [Warning.docModifyFailed "bad"] := by
  exact ⟨by decide, by decide⟩

/-- C7 amended (Rewrite failure is best-effort in the CRD-less pipeline
only): when the rewriter fails on the first file named `doc.yaml`, (1) the
CRD-less pipeline emits a warning and returns the file list unchanged, so
the original unmodified bytes are still included in its output; (2) the
CRD-only pipeline emits the warning but omits the descriptor: no file named
`doc.yaml` occurs among its extra files. -/
theorem rewrite_failure_best_effort (rw' : String → Except String String) (e : String) :
    (∀ (pre : List File) (f : File) (post : List File),
      (∀ g ∈ pre, g.name ≠ "doc.yaml") → f.name = "doc.yaml" →
      rw' f.data = .error e →
      crdlessDocRewrite rw' (pre ++ f :: post) =
        (pre ++ f :: post, [.docModifyFailed e])) ∧
    (∀ (c : Chart) (f : File),
      c.raw.find? (fun g => g.name = "doc.yaml") = some f → rw' f.data = .error e →
      (∀ g ∈ (extraFilesOf rw' c).1, g.name ≠ "doc.yaml") ∧
        Warning.docModifyFailed e ∈ (extraFilesOf rw' c).2) :=
  ⟨crdlessDocRewrite_err rw' e,
   fun c f hF he => extraFiles_doc_dropped rw' c f e hF he⟩

/-- Witness for the amended C7 on concrete data. -/
theorem rewrite_failure_best_effort_witness :
    crdlessDocRewrite failingRewrite [⟨"doc.yaml", "orig"⟩] =
      ([⟨"doc.yaml", "orig"⟩], [Warning.docModifyFailed "bad"]) ∧
      Warning.docModifyFailed "bad" ∈ (extraFilesOf failingRewrite docOnlyChart).2 :=
  ⟨(rewrite_failure_best_effort failingRewrite "bad").1 [] ⟨"doc.yaml", "orig"⟩ []
      (by simp) rfl rfl,
   ((rewrite_failure_best_effort failingRewrite "bad").2 docOnlyChart
      ⟨"doc.yaml", "orig"⟩ (by decide) rfl).2⟩

/-- C8 (KeyExtractor): extraction succeeds if and only if the document
unmarshals, the top-level API-version field is non-empty and the kind field
equals the marker "CustomResourceDefinition"; on success the returned key is
(group = spec.group, kind = spec.names.kind); and on failure the collector
merely records a warning and leaves both accumulator maps untouched — a
non-fatal skip, not an abort. -/
theorem extractCRDKey_spec (p : String → Option CRDFields) (data : String) :
    (∀ k : GroupKind, extractCRDKey p data = Except.ok k ↔
      ∃ crd : CRDFields, p data = some crd ∧ crd.apiVersion ≠ "" ∧
        crd.kind = "CustomResourceDefinition" ∧
        k = ⟨crd.specGroup, crd.specNamesKind⟩) ∧
    (∀ (src : String) (st : CollectState) (f : File) (e : String),
      extractCRDKey p f.data = Except.error e →
      collectFile p src st f =
        { st with warnings := st.warnings ++ [Warning.parseFailed f.name src e] }) := by
  constructor
  · intro k
    cases hP : p data with
    | none => simp [extractCRDKey, hP]
    | some crd =>
      simp only [extractCRDKey, hP]
      by_cases hbad : crd.apiVersion = "" ∨ crd.kind ≠ "CustomResourceDefinition"
      · rw [if_pos hbad]
        constructor
        · intro h
          exact absurd h (by simp)
        · rintro ⟨crd', hc, hv, hk, _⟩
          injection hc with hcc
          subst hcc
          rcases hbad with hb | hb
          · exact absurd hb hv
          · exact absurd hk hb
      · rw [if_neg hbad]
        push_neg at hbad
        constructor
        · intro h
          injection h with hh
          exact ⟨crd, rfl, hbad.1, hbad.2, hh.symm⟩
        · rintro ⟨crd', hc, _, _, hk⟩
          injection hc with hcc
          subst hcc
          rw [hk]
  · intro src st f e h
    exact collectFile_error h

/-- Witness for C8: the sample parser on "rootdata" yields exactly the key
(group g, kind Foo). -/
theorem extractCRDKey_spec_witness :
    extractCRDKey sampleParse "rootdata" = Except.ok ⟨"g", "Foo"⟩ :=
  ((extractCRDKey_spec sampleParse "rootdata").1 ⟨"g", "Foo"⟩).mpr
    ⟨⟨"apiextensions.k8s.io/v1", "CustomResourceDefinition", "g", "Foo"⟩,
      by decide, by decide, rfl, rfl⟩

/-- C9 (doc rewrite fails on non-map targets): the rewrite succeeds if and
only if the descriptor parses and each of the top-level keys `project`,
`chart`, `release` is either absent or bound to a map — in particular it
returns an error, which both pipelines treat exactly like a parse failure,
whenever any of those keys already holds a non-map value, while absent keys
are created rather than causing failure. -/
theorem modifyDocYaml_ok_iff (parseDoc : String → Option YMap)
    (marshal : YMap → String) (data newChartName : String) :
    (modifyDocYaml parseDoc marshal data newChartName).isOk = true ↔
      ∃ content, parseDoc data = some content ∧ okKeyB content "project" = true ∧
        okKeyB content "chart" = true ∧ okKeyB content "release" = true :=
  modifyDocYaml_isOk parseDoc marshal data newChartName

/-- Witness for C9: a document whose `project` key holds the plain string
"hello" makes the rewrite fail. -/
theorem modifyDocYaml_ok_iff_witness :
    (modifyDocYaml docParseBad docMarshal "doc" "new").isOk = false := by
  cases hv : (modifyDocYaml docParseBad docMarshal "doc" "new").isOk with
  | false => rfl
  | true =>
    obtain ⟨content, hc, hp, _, _⟩ :=
      (modifyDocYaml_ok_iff docParseBad docMarshal "doc" "new").mp hv
    have hc' : some [("project", YVal.str "hello")] = some content := hc
    injection hc' with hcc
    rw [← hcc] at hp
    exact absurd hp (by decide)

/-- C10 (Collection is read-only on the bundle tree): threading the walked
chart through the collection loop as explicit loop state, the chart that
comes out of the loop is exactly the chart that went in — no node's name,
metadata, file list, file contents or child list is touched — while the
accumulator component evolves exactly as `collectCRDs` computes it. -/
theorem collectCRDs_readonly (p : String → Option CRDFields) (c : Chart)
    (src : String) (st : CollectState) :
    collectCRDsFrame p c src st = (c, collectCRDs p c src st) := by
  unfold collectCRDsFrame collectCRDs
  exact foldl_collectStep p src (crdObjects c) c st

end ChartPacker
